import Mathlib

/-!
# Verification of opexebo core routines (borderCoverage.py, autocorrelation.py)

Shallow embedding of the two core routines of the opexebo repository:

* `border_coverage` and its helpers `_wall_field_rect`, `_wall_field_circ`,
  `_validate_wall_definition` (src/opexebo/analysis/borderCoverage.py);
* `autocorrelation` (src/opexebo/analysis/autocorrelation.py).

Conventions of the embedding:

* Python floats are modelled by `ℚ`; a float that may be NaN is modelled by
  `Option ℚ` with `none` standing for NaN (NaN-producing operations such as
  `1 - NaN` propagate `none`; comparisons against NaN are `false`, matching
  IEEE semantics used by numpy).
* numpy masked arrays are modelled by a total data function together with a
  total boolean mask function, plus explicit row/column counts; cells outside
  the stated bounds are never observed by the embedded code on the inputs the
  theorems quantify over.
* Exceptions are modelled with `Except`: a Python `raise` is an `.error`.
* `scipy.ndimage.distance_transform_edt` is an external collaborator; it is
  modelled by the *squared* Euclidean distance to the nearest zero cell
  (`sqDist`).  The source only ever observes whether a distance equals zero
  and copies distance values verbatim from one cell to another, and squaring
  preserves zeroness and nonnegativity, so every observable behaviour is
  unchanged while the development stays inside `ℚ` (scipy returns the square
  root, which is irrational in general).  When the input grid contains no
  zero cell at all the model returns 0; no theorem below depends on that case.
-/

/-- A Python float value: `none` models NaN. -/
abbrev PyQ := Option ℚ

/-- A numpy masked 2-D array of floats, as passed to `_wall_field_rect`:
`N` rows, `M` columns, cell data (possibly NaN) and a boolean mask
(`true` = masked/invalid).  A plain (unmasked) ndarray is the special case
`mask = fun _ _ => false`, matching `np.ma.asanyarray` wrapping. -/
structure MStrip where
  N : ℕ
  M : ℕ
  data : ℕ → ℕ → PyQ
  mask : ℕ → ℕ → Bool

/-- The boolean condition `wfmap > 1` used by the in-place clamp
`wfmap[wfmap>1] = 1` (line 162).  numpy evaluates the comparison on the raw
data (a masked-array boolean index is converted to its underlying data), and
`NaN > 1` is `false`. -/
def clampCond (w : MStrip) (i j : ℕ) : Bool :=
  match w.data i j with
  | some v => decide (1 < v)
  | none => false

/-- Cell data of `wfmap` after the in-place clamp `wfmap[wfmap>1] = 1`. -/
def data1 (w : MStrip) (i j : ℕ) : PyQ :=
  if clampCond w i j then some 1 else w.data i j

/-- Cell mask of `wfmap` after the clamp: assigning an unmasked value through
a masked-array index clears the mask at the assigned positions. -/
def mask1 (w : MStrip) (i j : ℕ) : Bool :=
  w.mask i j && !(clampCond w i j)

/-- `np.nan_to_num(inverted_wfmap.data)` where `inverted_wfmap = 1 - wfmap`
(lines 163-164): `1 - NaN = NaN`, and `nan_to_num` replaces NaN by 0. -/
def tIn (w : MStrip) (i j : ℕ) : ℚ :=
  match data1 w i j with
  | some v => 1 - v
  | none => 0

/-- The cells of the clamped, inverted, NaN-filled grid that hold value 0,
i.e. the foreground cells for the distance transform. -/
def zeroCells (w : MStrip) : List (ℕ × ℕ) :=
  (List.range w.N).flatMap fun i =>
    (List.range w.M).filterMap fun j =>
      if tIn w i j = 0 then some (i, j) else none

/-- `distance_transform_edt(tIn)` (line 164), modelled as the squared
Euclidean distance from `(i, j)` to the nearest zero cell of `tIn`
(0 when the grid has no zero cell; see the header comment). -/
def sqDist (w : MStrip) (i j : ℕ) : ℚ :=
  match (zeroCells w).map
      (fun p => ((i : ℚ) - (p.1 : ℚ)) ^ 2 + ((j : ℚ) - (p.2 : ℚ)) ^ 2) with
  | [] => 0
  | d :: ds => ds.foldl min d

/-- The column index of the first unmasked cell of row `i` of the masked
distance array, as scanned by the substitution loop (lines 175-181).
`np.isnan(val)` is always false there — distances are finite — so only the
mask decides validity. -/
def firstValid (w : MStrip) (i : ℕ) : Option ℕ :=
  (List.range w.M).find? fun j => !(mask1 w i j)

/-- Value of `adjacent_sites[i]` after the substitution loop: a masked
wall-adjacent site receives the first unmasked distance found scanning its
row outward; if none exists the (masked) value is left in place. -/
def val2 (w : MStrip) (i : ℕ) : ℚ :=
  if mask1 w i 0 then
    match firstValid w i with
    | some j => sqDist w i j
    | none => sqDist w i 0
  else sqDist w i 0

/-- Mask of `adjacent_sites[i]` after the substitution loop. -/
def mask2 (w : MStrip) (i : ℕ) : Bool :=
  if mask1 w i 0 then (firstValid w i).isNone else false

/-- Number of wall-adjacent sites still masked after substitution
(`np.sum(adjacent_sites.mask)`, line 183). -/
def maskedCount (w : MStrip) : ℕ :=
  ((List.range w.N).filter fun i => mask2 w i).length

/-- `np.ma.sum(adjacent_sites == 0)` (line 182): the number of unmasked
wall-adjacent sites whose (possibly substituted) distance is exactly 0. -/
def coveredCount (w : MStrip) : ℕ :=
  ((List.range w.N).filter
    fun i => !(mask2 w i) && decide (val2 w i = 0)).length

/-- Result of `_wall_field_rect`.  `undef` models the degenerate non-number
results Python produces when `contributing_cells = 0`: `np.ma.masked` (all
sites masked, so `covered` is the masked constant) or NaN (`0.0 / 0` on an
empty strip).  The function body contains no `raise`, which the Lean return
type makes structural: there is no exception alternative. -/
inductive PyVal where
  | num (q : ℚ)
  | undef
deriving DecidableEq

/-- `_wall_field_rect(wfmap)` (lines 138-187): the coverage fraction
`covered / contributing_cells` for one canonicalized wall strip. -/
def wall_field_rect (w : MStrip) : PyVal :=
  if w.N - maskedCount w = 0 then PyVal.undef
  else PyVal.num ((coveredCount w : ℚ) / ((w.N - maskedCount w : ℕ) : ℚ))

/-- The state of the argument `wfmap` after `_wall_field_rect` returns.
The single in-place mutation of the argument is the clamp
`wfmap[wfmap>1] = 1` (line 162); `distance` and its views are fresh arrays,
so no other write reaches the caller's object. -/
def wall_field_rect_post (w : MStrip) : MStrip :=
  ⟨w.N, w.M, data1 w, mask1 w⟩

/-- Python exceptions raised by this module.  `notImplementedError shape`
carries the offending shape of the message
`Arena shape <shape> not implemented`; `wallErr` wraps the `ValueError`s of
`_validate_wall_definition`; `fieldsValueError` is the `ValueError` for a
bad `fields` argument (line 95). -/
inductive WallErr where
  | notString
  | tooLong (n : ℕ)
  | emptyStr
  | badChar (c : Char)
deriving DecidableEq

/-- `_wall_field_circ(wfmap)` (lines 189-194): unconditionally
`raise NotImplementedError`. -/
inductive PyErr where
  | nameError (name : String)
  | notImplementedError (shape : List Char)
  | wallsValueError (e : WallErr)
  | fieldsValueError
deriving DecidableEq

def _wall_field_circ (_wfmap : MStrip) : Except PyErr PyVal :=
  .error (.notImplementedError [])

/-- The Python value returned by `_validate_wall_definition` on success:
the function body has no `return` statement, so it returns `None`
(`pynone`); `pystr` lets the statement that it does *not* return the
lower-cased specifier string be expressed. -/
inductive PyRet where
  | pynone
  | pystr (s : List Char)
deriving DecidableEq

/-- The `walls` argument: a Python string (as its character list) or any
non-string value. -/
inductive WallsArg where
  | pystr (s : List Char)
  | nonstr

/-- The valid wall characters `["t","r","b","l"]` (line 211). -/
def wallChars : List Char := ['t', 'r', 'b', 'l']

/-- `_validate_wall_definition(walls)` (lines 197-213).  Checks string-ness,
then length > 4, then emptiness, then lower-cases and raises on the first
character not in `wallChars` (the raised message names the lowered
character, since the loop runs over `walls.lower()`).  All branches that do
not raise fall off the end of the function and return `None`. -/
def _validate_wall_definition : WallsArg → Except WallErr PyRet
  | .nonstr => .error .notString
  | .pystr s =>
    if 4 < s.length then .error (.tooLong s.length)
    else if s.length = 0 then .error .emptyStr
    else
      match (s.map Char.toLower).find? (fun c => !decide (c.toLower ∈ wallChars)) with
      | some c => .error (.badChar c)
      | none => .ok .pynone

/-! ## Wall canonicalization (border_coverage, lines 101-134)

Each wall extracts a strip of the field map and reorients it so that column 0
is the wall-adjacent column.  numpy slice semantics: `fmap[:, :sw]` keeps
`min sw M` columns; `fmap[:, -sw:]` (with `sw ≥ 1`) keeps the last
`min sw M` columns; `np.fliplr` reverses columns; `np.rot90` rotates
counterclockwise, `rot90(A)[i, j] = A[j, C-1-i]` for an `R × C` input. -/

/-- `np.fliplr(g)`: reverse the column order. -/
def fliplr (g : MStrip) : MStrip :=
  ⟨g.N, g.M, fun i j => g.data i (g.M - 1 - j), fun i j => g.mask i (g.M - 1 - j)⟩

/-- `np.rot90(g)`: rotate counterclockwise (top edge moves to the left). -/
def rot90 (g : MStrip) : MStrip :=
  ⟨g.M, g.N, fun i j => g.data j (g.M - 1 - i), fun i j => g.mask j (g.M - 1 - i)⟩

/-- `fmap[:, :sw]` (line 102): the first `sw` columns. -/
def firstCols (sw : ℕ) (g : MStrip) : MStrip :=
  ⟨g.N, min sw g.M, fun i j => g.data i j, fun i j => g.mask i j⟩

/-- `fmap[:, -sw:]` for `sw ≥ 1` (line 108): the last `sw` columns. -/
def lastCols (sw : ℕ) (g : MStrip) : MStrip :=
  ⟨g.N, min sw g.M, fun i j => g.data i (g.M - min sw g.M + j),
    fun i j => g.mask i (g.M - min sw g.M + j)⟩

/-- `fmap[:sw, :]` (line 123): the first `sw` rows. -/
def firstRows (sw : ℕ) (g : MStrip) : MStrip :=
  ⟨min sw g.N, g.M, fun i j => g.data i j, fun i j => g.mask i j⟩

/-- `fmap[-sw:, :]` for `sw ≥ 1` (line 130): the last `sw` rows. -/
def lastRows (sw : ℕ) (g : MStrip) : MStrip :=
  ⟨min sw g.N, g.M, fun i j => g.data (g.N - min sw g.N + i) j,
    fun i j => g.mask (g.N - min sw g.N + i) j⟩

/-- Left-wall strip: `fmap[:, :sw]`, no reorientation (line 102). -/
def leftStrip (sw : ℕ) (g : MStrip) : MStrip := firstCols sw g

/-- Right-wall strip: `np.fliplr(fmap[:, -sw:])` (lines 108-109). -/
def rightStrip (sw : ℕ) (g : MStrip) : MStrip := fliplr (lastCols sw g)

/-- Bottom-wall strip: `np.rot90(fmap[:sw, :])` (lines 123-124). -/
def bottomStrip (sw : ℕ) (g : MStrip) : MStrip := rot90 (firstRows sw g)

/-- Top-wall strip: `np.fliplr(np.rot90(fmap[-sw:, :]))` (lines 130-131). -/
def topStrip (sw : ℕ) (g : MStrip) : MStrip := fliplr (rot90 (lastRows sw g))

/-! ## Border coverage aggregator (border_coverage, lines 8-135) -/

/-- Arena-shape alias groups.  Modelled from the spec: the lists live in
`opexebo.defaults` (`default.shapes_square` / `shapes_circle` /
`shapes_linear`), a module not part of the covered sources; their contents
are taken from the `border_coverage` docstring (lines 33-35) and spec §6:
square/rectangle group, circle group, linear group. -/
def shapes_square : List (List Char) :=
  [['s','q','u','a','r','e'], ['r','e','c','t','a','n','g','l','e'],
   ['r','e','c','t','a','n','g','u','l','a','r'], ['r','e','c','t'], ['s'], ['r']]

/-- Circle-group aliases; see `shapes_square`. -/
def shapes_circle : List (List Char) :=
  [['c','i','r','c'], ['c','i','r','c','u','l','a','r'],
   ['c','i','r','c','l','e'], ['c']]

/-- Linear-group aliases; see `shapes_square`. -/
def shapes_linear : List (List Char) :=
  [['l','i','n','e','a','r'], ['l','i','n','e'], ['l']]

/-- A shape string that falls into one of the three recognized alias
groups (after lower-casing). -/
def recognizedShape (shape : List Char) : Bool :=
  decide (shape.map Char.toLower ∈ shapes_square) ||
  decide (shape.map Char.toLower ∈ shapes_circle) ||
  decide (shape.map Char.toLower ∈ shapes_linear)

/-- The arena-shape dispatch at the top of `border_coverage`
(lines 78-85).  Every recognized branch executes `DO_A_THING()`, a name
defined nowhere, so Python raises `NameError`; any other shape raises
`NotImplementedError`. -/
def arena_dispatch (shape : List Char) : Except PyErr Unit :=
  if shape.map Char.toLower ∈ shapes_square then .error (.nameError "DO_A_THING")
  else if shape.map Char.toLower ∈ shapes_circle then .error (.nameError "DO_A_THING")
  else if shape.map Char.toLower ∈ shapes_linear then .error (.nameError "DO_A_THING")
  else .error (.notImplementedError shape)

/-- The `fields` argument of `border_coverage`: a single dict (wrapped into
a one-element list, line 91-93), a list/tuple/ndarray of dicts, or any other
type (raises `ValueError`, line 95).  Only the `field_map` entry of each
dict is consumed, so a field is modelled by its map. -/
inductive FieldsArg where
  | dict (m : MStrip)
  | flist (ms : List MStrip)
  | invalid

/-- `if c > coverage: coverage = c` (lines 104-105 etc.): a masked or NaN
comparison is falsy, so `undef` never updates the running maximum. -/
def updateCov (cov : ℚ) : PyVal → ℚ
  | .num c => if cov < c then c else cov
  | .undef => cov

/-- One iteration of the field loop (lines 99-134): the four walls in
source order `l`, `r`, `b`, `t`, each updating the running maximum. -/
def stepField (walls : List Char) (sw : ℕ) (cov : ℚ) (fmap : MStrip) : ℚ :=
  let cov := if 'l' ∈ walls then updateCov cov (wall_field_rect (leftStrip sw fmap)) else cov
  let cov := if 'r' ∈ walls then updateCov cov (wall_field_rect (rightStrip sw fmap)) else cov
  let cov := if 'b' ∈ walls then updateCov cov (wall_field_rect (bottomStrip sw fmap)) else cov
  let cov := if 't' ∈ walls then updateCov cov (wall_field_rect (topStrip sw fmap)) else cov
  cov

/-- `border_coverage(fields, **kwargs)` (lines 8-135), with the keyword
arguments `arena_shape`, `walls`, `search_width` made explicit.  The body
runs, in order: the arena-shape dispatch (which always raises, see
`arena_dispatch`), wall validation, lower-casing of `walls`, the `fields`
type normalization, then the per-field per-wall maximum-coverage loop. -/
def border_coverage (fields : FieldsArg) (shape : List Char) (walls : WallsArg)
    (sw : ℕ) : Except PyErr PyVal := do
  arena_dispatch shape
  let _ ← (_validate_wall_definition walls).mapError .wallsValueError
  let wallsLow : List Char :=
    match walls with
    | .pystr s => s.map Char.toLower
    | .nonstr => []
  let fieldsL : List MStrip ←
    match fields with
    | .dict m => .ok [m]
    | .flist ms => .ok ms
    | .invalid => .error .fieldsValueError
  .ok (.num (fieldsL.foldl (stepField wallsLow sw) 0))

/-! ## Autocorrelation (autocorrelation.py)

`general.normxcorr2_general` is the external correlation primitive (spec §6):
it is a parameter of the embedding, constrained in the theorems to return a
surface of shape `(2N-1, 2M-1)` as the spec's external interface states. -/

/-- A 2-D array that may contain NaN (`none`). -/
structure GridO where
  rows : ℕ
  cols : ℕ
  val : ℕ → ℕ → PyQ

/-- A plain 2-D real array. -/
structure Grid where
  rows : ℕ
  cols : ℕ
  val : ℕ → ℕ → ℚ

/-- `np.nan_to_num(map)` (line 33): replace NaN by 0. -/
def nan_to_num (g : GridO) : Grid :=
  ⟨g.rows, g.cols, fun i j => (g.val i j).getD 0⟩

/-- `np.round`: round half to even (banker's rounding), numpy's rounding
mode.  The source computes `map.shape[i] + map.shape[i] * 0.8` in binary
floating point; for every dimension `d` the exact value `1.8·d` has
fractional part in `{0, .2, .4, .6, .8}` — never `.5` — and the float
representation error (relative `2⁻⁵³`) cannot bridge the `≥ 0.1` gap to a
rounding boundary, so the rational computation rounds identically. -/
def npRound (q : ℚ) : ℤ :=
  if Int.fract q < 1 / 2 then ⌊q⌋
  else if 1 / 2 < Int.fract q then ⌊q⌋ + 1
  else if ⌊q⌋ % 2 = 0 then ⌊q⌋ else ⌊q⌋ + 1

/-- The fixed overlap fraction `0.8` (line 26), intentionally not
user-configurable. -/
def overlap_amount : ℚ := 4 / 5

/-- `new_size` for one axis (lines 42-44): `round(d + d·0.8)`, decremented
by 1 when even. -/
def new_size (d : ℕ) : ℤ :=
  if npRound ((d : ℚ) + (d : ℚ) * overlap_amount) % 2 = 0
  then npRound ((d : ℚ) + (d : ℚ) * overlap_amount) - 1
  else npRound ((d : ℚ) + (d : ℚ) * overlap_amount)

/-- The slice bounds `(d0, d1)` for one axis (lines 45-48): `offset`
rounds `(full - new_size)/2 + 1`, then `d0 = int(offset - 1)`,
`d1 = int(full - offset + 1)`.  On the shapes the theorems quantify over,
`0 ≤ d0 ≤ d1 ≤ full`, so Python's clamping/negative-index slice semantics
never engage and `Int.toNat` is exact. -/
def cropInterval (dim full : ℕ) : ℕ × ℕ :=
  ((npRound (((full : ℚ) - ((new_size dim : ℤ) : ℚ)) / 2 + 1) - 1).toNat,
   ((full : ℤ) - npRound (((full : ℚ) - ((new_size dim : ℤ) : ℚ)) / 2 + 1) + 1).toNat)

/-- `autocorrelation(map)` (lines 11-51): NaN-fill the map, call the
external correlation primitive on it, then crop each axis to the centered
odd window `[d0, d1)`. -/
def autocorrelation (normxcorr2 : Grid → Grid) (m : GridO) : Grid :=
  let mp := nan_to_num m
  let aCorr := normxcorr2 mp
  let rI := cropInterval mp.rows aCorr.rows
  let cI := cropInterval mp.cols aCorr.cols
  ⟨rI.2 - rI.1, cI.2 - cI.1, fun i j => aCorr.val (rI.1 + i) (cI.1 + j)⟩

/-! ## Arithmetic of the autocorrelation crop -/

/-- Closed natural-number form of `new_size`: `round(1.8·d)` equals
`(9·d + 2) / 5` because the fractional part of `9·d/5` is never `1/2`
(proved in `npRound_nine_fifths`), with the even-size decrement applied. -/
def cropSize (d : ℕ) : ℕ :=
  if (9 * d + 2) / 5 % 2 = 0 then (9 * d + 2) / 5 - 1 else (9 * d + 2) / 5

lemma npRound_intCast (n : ℤ) : npRound (n : ℚ) = n := by
  unfold npRound
  rw [Int.fract_intCast, Int.floor_intCast]
  norm_num

lemma npRound_add_int (x : ℚ) (n : ℤ) (h : Int.fract x ≠ 1 / 2) :
    npRound (x + n) = npRound x + n := by
  unfold npRound
  rw [Int.fract_add_int, Int.floor_add_int]
  rcases lt_or_gt_of_ne h with h1 | h1
  · simp only [if_pos h1]
  · have h2 : ¬Int.fract x < 1 / 2 := not_lt.mpr h1.le
    simp only [if_neg h2, if_pos h1]
    ring

lemma npRound_nine_fifths (d : ℕ) :
    npRound ((d : ℚ) + (d : ℚ) * overlap_amount) = ((9 * d + 2) / 5 : ℕ) := by
  obtain ⟨k, r, hr5, rfl⟩ : ∃ k r, r < 5 ∧ d = 5 * k + r :=
    ⟨d / 5, d % 5, Nat.mod_lt _ (by norm_num), by omega⟩
  interval_cases r
  · have e1 : ((5*k+0 : ℕ) : ℚ) + ((5*k+0 : ℕ) : ℚ) * overlap_amount
        = (0 : ℚ) + ((9*k : ℤ) : ℚ) := by unfold overlap_amount; push_cast; ring
    rw [e1, npRound_add_int _ _ (by norm_num [Int.fract]),
      show npRound (0:ℚ) = 0 from by norm_num [npRound, Int.fract],
      show (9*(5*k+0)+2)/5 = 9*k+0 from by omega]
    push_cast; ring
  · have e1 : ((5*k+1 : ℕ) : ℚ) + ((5*k+1 : ℕ) : ℚ) * overlap_amount
        = (9/5 : ℚ) + ((9*k : ℤ) : ℚ) := by unfold overlap_amount; push_cast; ring
    rw [e1, npRound_add_int _ _ (by norm_num [Int.fract]),
      show npRound (9/5:ℚ) = 2 from by norm_num [npRound, Int.fract],
      show (9*(5*k+1)+2)/5 = 9*k+2 from by omega]
    push_cast; ring
  · have e1 : ((5*k+2 : ℕ) : ℚ) + ((5*k+2 : ℕ) : ℚ) * overlap_amount
        = (18/5 : ℚ) + ((9*k : ℤ) : ℚ) := by unfold overlap_amount; push_cast; ring
    rw [e1, npRound_add_int _ _ (by norm_num [Int.fract]),
      show npRound (18/5:ℚ) = 4 from by norm_num [npRound, Int.fract],
      show (9*(5*k+2)+2)/5 = 9*k+4 from by omega]
    push_cast; ring
  · have e1 : ((5*k+3 : ℕ) : ℚ) + ((5*k+3 : ℕ) : ℚ) * overlap_amount
        = (27/5 : ℚ) + ((9*k : ℤ) : ℚ) := by unfold overlap_amount; push_cast; ring
    rw [e1, npRound_add_int _ _ (by norm_num [Int.fract]),
      show npRound (27/5:ℚ) = 5 from by norm_num [npRound, Int.fract],
      show (9*(5*k+3)+2)/5 = 9*k+5 from by omega]
    push_cast; ring
  · have e1 : ((5*k+4 : ℕ) : ℚ) + ((5*k+4 : ℕ) : ℚ) * overlap_amount
        = (36/5 : ℚ) + ((9*k : ℤ) : ℚ) := by unfold overlap_amount; push_cast; ring
    rw [e1, npRound_add_int _ _ (by norm_num [Int.fract]),
      show npRound (36/5:ℚ) = 7 from by norm_num [npRound, Int.fract],
      show (9*(5*k+4)+2)/5 = 9*k+7 from by omega]
    push_cast; ring

lemma new_size_eq_cropSize (d : ℕ) (hd : 1 ≤ d) : new_size d = (cropSize d : ℤ) := by
  unfold new_size cropSize
  rw [npRound_nine_fifths]
  have hp2 : 2 ≤ (9 * d + 2) / 5 := by omega
  split_ifs <;> omega

lemma cropSize_odd (d : ℕ) (hd : 1 ≤ d) : cropSize d % 2 = 1 := by
  unfold cropSize
  have hp2 : 2 ≤ (9 * d + 2) / 5 := by omega
  split_ifs <;> omega

lemma cropSize_le (d : ℕ) (hd : 1 ≤ d) : cropSize d ≤ 2 * d - 1 := by
  rcases Nat.lt_or_ge d 3 with h3 | h3
  · interval_cases d <;> decide
  · unfold cropSize
    have : (9 * d + 2) / 5 ≤ 2 * d - 1 := by omega
    split_ifs <;> omega

lemma cropSize_lt_iff (d : ℕ) (hd : 1 ≤ d) : (cropSize d < 2 * d - 1) ↔ 8 ≤ d := by
  constructor
  · intro h
    by_contra hlt
    push_neg at hlt
    interval_cases d <;> revert h <;> decide
  · intro h8
    unfold cropSize
    have : (9 * d + 2) / 5 < 2 * d - 1 := by omega
    split_ifs <;> omega

lemma cropInterval_eq (d : ℕ) (hd : 1 ≤ d) :
    cropInterval d (2 * d - 1)
      = ((2 * d - 1 - cropSize d) / 2, 2 * d - 1 - (2 * d - 1 - cropSize d) / 2) := by
  unfold cropInterval
  rw [new_size_eq_cropSize d hd]
  have hodd := cropSize_odd d hd
  have hle := cropSize_le d hd
  set ns := cropSize d with hns
  set D := (2 * d - 1 - ns) / 2 with hD
  have hZ : ((2 * d - 1 : ℕ) : ℤ) - ((ns : ℕ) : ℤ) = 2 * (D : ℤ) := by omega
  have hq : (((2 * d - 1 : ℕ) : ℚ) - (((ns : ℕ) : ℤ) : ℚ)) / 2 + 1 = (((D : ℤ) + 1 : ℤ) : ℚ) := by
    have hQ : ((2 * d - 1 : ℕ) : ℚ) - ((ns : ℕ) : ℚ) = 2 * (D : ℚ) := by exact_mod_cast hZ
    push_cast
    push_cast at hQ
    rw [hQ]
    ring
  rw [hq, npRound_intCast]
  simp only [Prod.mk.injEq]
  constructor <;> omega

lemma nan_to_num_rows (m : GridO) : (nan_to_num m).rows = m.rows := rfl

lemma nan_to_num_cols (m : GridO) : (nan_to_num m).cols = m.cols := rfl

lemma autocorrelation_rows (prim : Grid → Grid) (m : GridO)
    (hf : (prim (nan_to_num m)).rows = 2 * m.rows - 1) (hr : 1 ≤ m.rows) :
    (autocorrelation prim m).rows = cropSize m.rows := by
  have hodd := cropSize_odd m.rows hr
  have hle := cropSize_le m.rows hr
  simp only [autocorrelation, nan_to_num_rows, nan_to_num_cols]
  rw [hf, cropInterval_eq m.rows hr]
  omega

lemma autocorrelation_cols (prim : Grid → Grid) (m : GridO)
    (hf : (prim (nan_to_num m)).cols = 2 * m.cols - 1) (hc : 1 ≤ m.cols) :
    (autocorrelation prim m).cols = cropSize m.cols := by
  have hodd := cropSize_odd m.cols hc
  have hle := cropSize_le m.cols hc
  simp only [autocorrelation, nan_to_num_rows, nan_to_num_cols]
  rw [hf, cropInterval_eq m.cols hc]
  omega

lemma autocorrelation_val (prim : Grid → Grid) (m : GridO)
    (hfr : (prim (nan_to_num m)).rows = 2 * m.rows - 1)
    (hfc : (prim (nan_to_num m)).cols = 2 * m.cols - 1)
    (hr : 1 ≤ m.rows) (hc : 1 ≤ m.cols) (i j : ℕ) :
    (autocorrelation prim m).val i j
      = (prim (nan_to_num m)).val ((2 * m.rows - 1 - cropSize m.rows) / 2 + i)
          ((2 * m.cols - 1 - cropSize m.cols) / 2 + j) := by
  simp only [autocorrelation, nan_to_num_rows, nan_to_num_cols]
  rw [hfr, hfc, cropInterval_eq m.rows hr, cropInterval_eq m.cols hc]

/-- A model instance of the external correlation primitive (spec §6): it
returns a surface of shape `(2N-1, 2M-1)`.  Used only to instantiate
witnesses and counterexamples at concrete inputs. -/
def primModel (g : Grid) : Grid :=
  ⟨2 * g.rows - 1, 2 * g.cols - 1, fun i j => (i : ℚ) + (j : ℚ)⟩

/-- Concrete 2×3 all-ones firing map. -/
def mapTwoThree : GridO := ⟨2, 3, fun _ _ => some 1⟩

/-- Concrete 5×5 all-ones firing map. -/
def mapFiveFive : GridO := ⟨5, 5, fun _ _ => some 1⟩

/-- Concrete 8×8 all-zeros firing map. -/
def mapEightEight : GridO := ⟨8, 8, fun _ _ => some 0⟩

/-- C3: for every 2D input map with at least 1 cell per axis (NaNs allowed,
replaced by 0 before the correlation primitive is invoked), the cropped
autocorrelogram has, on each axis, an odd size equal to
`round(dim + dim*0.8)` decremented by 1 if even (`new_size`), and the
zero-lag cell of the full `(2N-1, 2M-1)` surface — index
`(N-1, M-1)` — maps to the geometric center of the cropped result. -/
theorem C3_autocorrelation_centered_odd (prim : Grid → Grid) (m : GridO)
    (hprim : ∀ g : Grid, (prim g).rows = 2 * g.rows - 1 ∧ (prim g).cols = 2 * g.cols - 1)
    (hr : 1 ≤ m.rows) (hc : 1 ≤ m.cols) :
    (autocorrelation prim m).rows % 2 = 1 ∧
    (autocorrelation prim m).cols % 2 = 1 ∧
    ((autocorrelation prim m).rows : ℤ) = new_size m.rows ∧
    ((autocorrelation prim m).cols : ℤ) = new_size m.cols ∧
    (autocorrelation prim m).val (((autocorrelation prim m).rows - 1) / 2)
        (((autocorrelation prim m).cols - 1) / 2)
      = (prim (nan_to_num m)).val (m.rows - 1) (m.cols - 1) := by
  obtain ⟨hfr, hfc⟩ := hprim (nan_to_num m)
  rw [nan_to_num_rows] at hfr
  rw [nan_to_num_cols] at hfc
  have h1 := autocorrelation_rows prim m hfr hr
  have h2 := autocorrelation_cols prim m hfc hc
  have hor := cropSize_odd m.rows hr
  have hoc := cropSize_odd m.cols hc
  have hlr := cropSize_le m.rows hr
  have hlc := cropSize_le m.cols hc
  refine ⟨by omega, by omega, ?_, ?_, ?_⟩
  · rw [h1, new_size_eq_cropSize _ hr]
  · rw [h2, new_size_eq_cropSize _ hc]
  · rw [h1, h2, autocorrelation_val prim m hfr hfc hr hc]
    congr 1 <;> omega

/-- Witness for C3 at the concrete 2×3 all-ones map and the model
primitive. -/
theorem C3_autocorrelation_centered_odd_witness :
    ((∀ g : Grid, (primModel g).rows = 2 * g.rows - 1 ∧ (primModel g).cols = 2 * g.cols - 1) ∧
      1 ≤ mapTwoThree.rows ∧ 1 ≤ mapTwoThree.cols) ∧
    ((autocorrelation primModel mapTwoThree).rows % 2 = 1 ∧
     (autocorrelation primModel mapTwoThree).cols % 2 = 1 ∧
     ((autocorrelation primModel mapTwoThree).rows : ℤ) = new_size mapTwoThree.rows ∧
     ((autocorrelation primModel mapTwoThree).cols : ℤ) = new_size mapTwoThree.cols ∧
     (autocorrelation primModel mapTwoThree).val
        (((autocorrelation primModel mapTwoThree).rows - 1) / 2)
        (((autocorrelation primModel mapTwoThree).cols - 1) / 2)
      = (primModel (nan_to_num mapTwoThree)).val
          (mapTwoThree.rows - 1) (mapTwoThree.cols - 1)) :=
  ⟨⟨fun g => ⟨rfl, rfl⟩, by decide, by decide⟩,
    C3_autocorrelation_centered_odd primModel mapTwoThree
      (fun g => ⟨rfl, rfl⟩) (by decide) (by decide)⟩

/-- C4 counterexample: the 5×5 all-ones map is not degenerate, yet the
cropped autocorrelogram is exactly as large as the full `9 × 9`
correlation surface on both axes, not strictly smaller. -/
theorem C4_counterexample_five :
    (autocorrelation primModel mapFiveFive).rows = 2 * mapFiveFive.rows - 1 ∧
    (autocorrelation primModel mapFiveFive).cols = 2 * mapFiveFive.cols - 1 ∧
    ¬((autocorrelation primModel mapFiveFive).rows < 2 * mapFiveFive.rows - 1) := by
  have h1 := autocorrelation_rows primModel mapFiveFive rfl (by decide)
  have h2 := autocorrelation_cols primModel mapFiveFive rfl (by decide)
  rw [h1, h2]
  refine ⟨by decide, by decide, by decide⟩

/-- C4 (amended): each dimension of the autocorrelogram is at most the
corresponding full-surface dimension `2·dim - 1`, with *strict* inequality
exactly when the input dimension is at least 8; for input dimensions 1-7
the cropped size equals the full size. -/
theorem C4_autocorrelation_size_bound (prim : Grid → Grid) (m : GridO)
    (hprim : ∀ g : Grid, (prim g).rows = 2 * g.rows - 1 ∧ (prim g).cols = 2 * g.cols - 1)
    (hr : 1 ≤ m.rows) (hc : 1 ≤ m.cols) :
    (autocorrelation prim m).rows ≤ 2 * m.rows - 1 ∧
    (autocorrelation prim m).cols ≤ 2 * m.cols - 1 ∧
    ((autocorrelation prim m).rows < 2 * m.rows - 1 ↔ 8 ≤ m.rows) ∧
    ((autocorrelation prim m).cols < 2 * m.cols - 1 ↔ 8 ≤ m.cols) := by
  obtain ⟨hfr, hfc⟩ := hprim (nan_to_num m)
  rw [nan_to_num_rows] at hfr
  rw [nan_to_num_cols] at hfc
  have h1 := autocorrelation_rows prim m hfr hr
  have h2 := autocorrelation_cols prim m hfc hc
  rw [h1, h2]
  exact ⟨cropSize_le _ hr, cropSize_le _ hc, cropSize_lt_iff _ hr, cropSize_lt_iff _ hc⟩

/-- Witness for the amended C4 at the concrete 8×8 all-zeros map: there the
inequality is strict on both axes. -/
theorem C4_autocorrelation_size_bound_witness :
    ((∀ g : Grid, (primModel g).rows = 2 * g.rows - 1 ∧ (primModel g).cols = 2 * g.cols - 1) ∧
      1 ≤ mapEightEight.rows ∧ 1 ≤ mapEightEight.cols) ∧
    ((autocorrelation primModel mapEightEight).rows ≤ 2 * mapEightEight.rows - 1 ∧
     (autocorrelation primModel mapEightEight).cols ≤ 2 * mapEightEight.cols - 1 ∧
     ((autocorrelation primModel mapEightEight).rows < 2 * mapEightEight.rows - 1 ↔
       8 ≤ mapEightEight.rows) ∧
     ((autocorrelation primModel mapEightEight).cols < 2 * mapEightEight.cols - 1 ↔
       8 ≤ mapEightEight.cols)) :=
  ⟨⟨fun g => ⟨rfl, rfl⟩, by decide, by decide⟩,
    C4_autocorrelation_size_bound primModel mapEightEight
      (fun g => ⟨rfl, rfl⟩) (by decide) (by decide)⟩

/-! ## Wall validator: characterization -/

lemma toNat_ofNat_valid (n : ℕ) (h : n.isValidChar) : (Char.ofNat n).toNat = n := by
  rw [Char.ofNat, dif_pos h]
  rfl

/-- `str.lower()` is idempotent on each character (ASCII case folding). -/
lemma Char_toLower_toLower (c : Char) : (c.toLower).toLower = c.toLower := by
  simp only [Char.toLower]
  by_cases h : c.toNat ≥ 65 ∧ c.toNat ≤ 90
  · rw [if_pos h]
    have hv : (c.toNat + 32).isValidChar := Or.inl (by omega)
    have ht : (Char.ofNat (c.toNat + 32)).toNat = c.toNat + 32 := toNat_ofNat_valid _ hv
    rw [if_neg]
    rw [ht]
    omega
  · rw [if_neg h, if_neg h]

/-- The character scan of the validator accepts the whole lowered string
iff every original character is in `{t,r,b,l}` up to case. -/
lemma find?_invalid_none_iff (s : List Char) :
    ((s.map Char.toLower).find? (fun c => !decide (c.toLower ∈ wallChars)) = none)
      ↔ ∀ c ∈ s, c.toLower ∈ wallChars := by
  rw [List.find?_eq_none]
  constructor
  · intro h c hc
    have h2 := h (c.toLower) (List.mem_map_of_mem _ hc)
    simpa [Char_toLower_toLower] using h2
  · intro h y hy
    obtain ⟨c, hc, rfl⟩ := List.mem_map.mp hy
    simp [Char_toLower_toLower, h c hc]

/-- C7: wall-specifier validation succeeds exactly on strings of length 1-4
all of whose characters are in `{t,r,b,l}` up to case; every other input
(non-string, empty, longer than 4, or containing a foreign character) makes
it raise a `ValueError` (`WallErr` collects the four messages, naming the
length or the offending character). -/
theorem C7_validate_wall_definition_iff (w : WallsArg) :
    (∃ u, _validate_wall_definition w = .ok u) ↔
      (∃ s, w = WallsArg.pystr s ∧ 1 ≤ s.length ∧ s.length ≤ 4 ∧
        ∀ c ∈ s, c.toLower ∈ wallChars) := by
  cases w with
  | nonstr =>
    simp [_validate_wall_definition]
  | pystr s =>
    simp only [_validate_wall_definition, WallsArg.pystr.injEq]
    split_ifs with h1 h2
    · constructor
      · rintro ⟨u, hu⟩
        simp at hu
      · rintro ⟨s', hs', hlen1, hlen4, _⟩
        subst hs'
        omega
    · constructor
      · rintro ⟨u, hu⟩
        simp at hu
      · rintro ⟨s', hs', hlen1, hlen4, _⟩
        subst hs'
        omega
    · cases hf : (s.map Char.toLower).find? (fun c => !decide (c.toLower ∈ wallChars)) with
      | some c =>
        constructor
        · rintro ⟨u, hu⟩
          simp at hu
        · rintro ⟨s', hs', _, _, hall⟩
          subst hs'
          exact absurd ((find?_invalid_none_iff s).mpr hall) (by rw [hf]; simp)
      | none =>
        have hall := (find?_invalid_none_iff s).mp hf
        exact ⟨fun _ => ⟨s, rfl, by omega, by omega, hall⟩, fun _ => ⟨.pynone, rfl⟩⟩

/-- C8 counterexample: on the valid specifier `"T"` the validator returns
`None`, not the lower-cased specifier string `"t"`. -/
theorem C8_counterexample_returns_none :
    _validate_wall_definition (.pystr ['T']) = .ok PyRet.pynone ∧
      PyRet.pynone ≠ PyRet.pystr ['t'] :=
  ⟨rfl, by decide⟩

/-- C8 (amended): for every valid wall specifier the validator returns
successfully with `None` — validation success is signalled by not raising;
the lower-casing of the specifier is done by the caller (`border_coverage`
line 89), not returned by the validator. -/
theorem C8_validator_returns_none (s : List Char) (h1 : 1 ≤ s.length)
    (h4 : s.length ≤ 4) (hc : ∀ c ∈ s, c.toLower ∈ wallChars) :
    _validate_wall_definition (.pystr s) = .ok PyRet.pynone := by
  simp only [_validate_wall_definition]
  rw [if_neg (by omega), if_neg (by omega), (find?_invalid_none_iff s).mpr hc]

/-- Witness for the amended C8 at the specifier `"tR"`. -/
theorem C8_validator_returns_none_witness :
    (1 ≤ (['t', 'R'] : List Char).length ∧ (['t', 'R'] : List Char).length ≤ 4 ∧
      ∀ c ∈ (['t', 'R'] : List Char), c.toLower ∈ wallChars) ∧
    _validate_wall_definition (.pystr ['t', 'R']) = .ok PyRet.pynone :=
  ⟨⟨by decide, by decide, by decide⟩,
    C8_validator_returns_none ['t', 'R'] (by decide) (by decide) (by decide)⟩

/-! ## Degenerate division, dispatch, and mutation claims -/

/-- Concrete 1×1 strip whose only cell is masked. -/
def stripAllMasked : MStrip := ⟨1, 1, fun _ _ => some 0, fun _ _ => true⟩

/-- Concrete 1×1 unmasked strip holding the value 2 (> 1). -/
def stripOverOne : MStrip := ⟨1, 1, fun _ _ => some 2, fun _ _ => false⟩

/-- Concrete 3×1 unmasked all-ones strip. -/
def stripOnesCol : MStrip := ⟨3, 1, fun _ _ => some 1, fun _ _ => false⟩

/-- C9: when every wall-adjacent site is still invalid after substitution
(`contributing_cells = 0`), `_wall_field_rect` raises no typed error — the
return type `PyVal` has no exception alternative and the function has no
`raise` — and the unguarded division produces the degenerate non-number
result (`undef`: NaN/masked propagation), not an `InvalidArgument`. -/
theorem C9_wall_field_rect_division_degenerate (w : MStrip)
    (h : w.N - maskedCount w = 0) : wall_field_rect w = PyVal.undef := by
  unfold wall_field_rect
  rw [if_pos h]

/-- Witness for C9: the all-masked 1×1 strip. -/
theorem C9_wall_field_rect_division_degenerate_witness :
    (stripAllMasked.N - maskedCount stripAllMasked = 0) ∧
      wall_field_rect stripAllMasked = PyVal.undef :=
  ⟨by decide, C9_wall_field_rect_division_degenerate stripAllMasked (by decide)⟩

/-- C1 evaluation: passing `arena_shape="circle"` makes `border_coverage`
raise `NameError` (`DO_A_THING` is defined nowhere, line 81), not the
`NotImplementedError` about circular arenas that `_wall_field_circ` holds
and the spec promises. -/
theorem C1_circle_dispatch_namerror :
    border_coverage (.flist []) ['c', 'i', 'r', 'c', 'l', 'e']
        (.pystr ['t', 'r', 'b', 'l']) 8
      = .error (.nameError "DO_A_THING") := rfl

/-- C2: no call of `border_coverage` returns a coverage value: the
arena-shape dispatch runs first and always raises — `NameError` on every
recognized shape (all three groups call the undefined `DO_A_THING`),
`NotImplementedError` on every unrecognized shape — so the wall-coverage
loop is unreachable. -/
theorem C2_border_coverage_never_returns (fields : FieldsArg) (shape : List Char)
    (walls : WallsArg) (sw : ℕ) :
    border_coverage fields shape walls sw =
      .error (if recognizedShape shape then PyErr.nameError "DO_A_THING"
              else PyErr.notImplementedError shape) := by
  have error_bind : ∀ {α β : Type} (e : PyErr) (f : α → Except PyErr β),
      ((Except.error e : Except PyErr α) >>= f) = .error e := fun _ _ => rfl
  by_cases h1 : shape.map Char.toLower ∈ shapes_square
  · have hd : arena_dispatch shape = .error (.nameError "DO_A_THING") := by
      simp [arena_dispatch, h1]
    simp [border_coverage, hd, recognizedShape, h1, error_bind]
  · by_cases h2 : shape.map Char.toLower ∈ shapes_circle
    · have hd : arena_dispatch shape = .error (.nameError "DO_A_THING") := by
        simp [arena_dispatch, h1, h2]
      simp [border_coverage, hd, recognizedShape, h1, h2, error_bind]
    · by_cases h3 : shape.map Char.toLower ∈ shapes_linear
      · have hd : arena_dispatch shape = .error (.nameError "DO_A_THING") := by
          simp [arena_dispatch, h1, h2, h3]
        simp [border_coverage, hd, recognizedShape, h1, h2, h3, error_bind]
      · have hd : arena_dispatch shape = .error (.notImplementedError shape) := by
          simp [arena_dispatch, h1, h2, h3]
        simp [border_coverage, hd, recognizedShape, h1, h2, h3, error_bind]

/-- C10 counterexample: the evaluator is not read-only on its argument —
a strip holding the value 2 is clamped in place, so the caller's array
differs after the call. -/
theorem C10_counterexample_inplace_clamp :
    (wall_field_rect_post stripOverOne).data 0 0 ≠ stripOverOne.data 0 0 := by
  decide

/-- C10 (amended): the only mutation `_wall_field_rect` performs on its
argument is the in-place clamp of raw values exceeding 1 (which also
unmasks such cells); on a strip with no in-bounds raw value above 1 the
argument's data and mask are unchanged, the shape is untouched, and the
call yields a single value with no other effect (the embedding is a pure
function).  Callers in `border_coverage` pass defensive copies, so the
caller's field map is unaffected either way. -/
theorem C10_wall_field_rect_no_mutation_without_clamp (w : MStrip)
    (h : ∀ i < w.N, ∀ j < w.M, ∀ v, w.data i j = some v → v ≤ 1) :
    (∀ i < w.N, ∀ j < w.M,
      (wall_field_rect_post w).data i j = w.data i j ∧
      (wall_field_rect_post w).mask i j = w.mask i j) ∧
    (wall_field_rect_post w).N = w.N ∧ (wall_field_rect_post w).M = w.M := by
  refine ⟨?_, rfl, rfl⟩
  intro i hi j hj
  have hc : clampCond w i j = false := by
    unfold clampCond
    cases hd : w.data i j with
    | none => rfl
    | some v =>
      simp only [decide_eq_false_iff_not, not_lt]
      exact h i hi j hj v hd
  constructor
  · simp [wall_field_rect_post, data1, hc]
  · simp [wall_field_rect_post, mask1, hc]

/-- Witness for the amended C10 at the all-ones 3×1 strip. -/
theorem C10_wall_field_rect_no_mutation_without_clamp_witness :
    (∀ i < stripOnesCol.N, ∀ j < stripOnesCol.M, ∀ v,
        stripOnesCol.data i j = some v → v ≤ 1) ∧
    ((∀ i < stripOnesCol.N, ∀ j < stripOnesCol.M,
        (wall_field_rect_post stripOnesCol).data i j = stripOnesCol.data i j ∧
        (wall_field_rect_post stripOnesCol).mask i j = stripOnesCol.mask i j) ∧
      (wall_field_rect_post stripOnesCol).N = stripOnesCol.N ∧
      (wall_field_rect_post stripOnesCol).M = stripOnesCol.M) :=
  ⟨fun _ _ _ _ _u hu => le_of_eq (Option.some.inj hu).symm,
    C10_wall_field_rect_no_mutation_without_clamp stripOnesCol
      (fun _ _ _ _ _u hu => le_of_eq (Option.some.inj hu).symm)⟩

/-! ## Wall coverage evaluator: full-field strips (C5) -/

lemma le_foldl_min {c d : ℚ} {l : List ℚ} (hd : c ≤ d) (hl : ∀ x ∈ l, c ≤ x) :
    c ≤ l.foldl min d := by
  induction l generalizing d with
  | nil => exact hd
  | cons a t ih =>
    exact ih (le_min hd (hl a (List.mem_cons_self a t)))
      (fun x hx => hl x (List.mem_cons_of_mem a hx))

lemma foldl_min_le_init (d : ℚ) (l : List ℚ) : l.foldl min d ≤ d := by
  induction l generalizing d with
  | nil => exact le_refl d
  | cons a t ih => exact le_trans (ih (min d a)) (min_le_left d a)

lemma foldl_min_le_mem {d x : ℚ} {l : List ℚ} (hx : x ∈ l) : l.foldl min d ≤ x := by
  induction l generalizing d with
  | nil => cases hx
  | cons a t ih =>
    rcases List.mem_cons.mp hx with rfl | hx'
    · exact le_trans (foldl_min_le_init (min d x) t) (min_le_right d x)
    · exact ih hx'

lemma mem_zeroCells (w : MStrip) (i j : ℕ) :
    (i, j) ∈ zeroCells w ↔ i < w.N ∧ j < w.M ∧ tIn w i j = 0 := by
  simp only [zeroCells, List.mem_flatMap, List.mem_filterMap, List.mem_range]
  constructor
  · rintro ⟨a, ha, b, hb, hab⟩
    by_cases h : tIn w a b = 0
    · rw [if_pos h] at hab
      simp only [Option.some.injEq, Prod.mk.injEq] at hab
      obtain ⟨rfl, rfl⟩ := hab
      exact ⟨ha, hb, h⟩
    · rw [if_neg h] at hab
      cases hab
  · rintro ⟨hi, hj, h0⟩
    exact ⟨i, hi, j, hj, by rw [if_pos h0]⟩

lemma sqDist_nonneg (w : MStrip) (i j : ℕ) : 0 ≤ sqDist w i j := by
  unfold sqDist
  cases hl : (zeroCells w).map
      (fun p => ((i : ℚ) - (p.1 : ℚ)) ^ 2 + ((j : ℚ) - (p.2 : ℚ)) ^ 2) with
  | nil => norm_num
  | cons d ds =>
    have hmem : ∀ x ∈ (zeroCells w).map
        (fun p => ((i : ℚ) - (p.1 : ℚ)) ^ 2 + ((j : ℚ) - (p.2 : ℚ)) ^ 2), 0 ≤ x := by
      rintro x hx
      obtain ⟨p, _, rfl⟩ := List.mem_map.mp hx
      positivity
    rw [hl] at hmem
    exact le_foldl_min (hmem d (List.mem_cons_self d ds))
      (fun x hx => hmem x (List.mem_cons_of_mem d hx))

lemma sqDist_eq_zero_of_mem (w : MStrip) (i j : ℕ) (h : (i, j) ∈ zeroCells w) :
    sqDist w i j = 0 := by
  have h0 : (0 : ℚ) ∈ (zeroCells w).map
      (fun p => ((i : ℚ) - (p.1 : ℚ)) ^ 2 + ((j : ℚ) - (p.2 : ℚ)) ^ 2) :=
    List.mem_map.mpr ⟨(i, j), h, by simp⟩
  refine le_antisymm ?_ (sqDist_nonneg w i j)
  unfold sqDist
  cases hl : (zeroCells w).map
      (fun p => ((i : ℚ) - (p.1 : ℚ)) ^ 2 + ((j : ℚ) - (p.2 : ℚ)) ^ 2) with
  | nil =>
    rw [hl] at h0
  | cons d ds =>
    rw [hl] at h0
    rcases List.mem_cons.mp h0 with hd | hds
    · exact hd ▸ foldl_min_le_init d ds
    · exact foldl_min_le_mem hds

/-- Concrete 2×2 unmasked all-ones strip. -/
def stripOnesTwoTwo : MStrip := ⟨2, 2, fun _ _ => some 1, fun _ _ => false⟩

/-- C5: on a canonicalized strip whose cells are all 1 (no mask, no NaN),
the evaluator returns exactly 1: every wall-adjacent site has distance 0 to
the field, no site is masked, so `covered = N`, `contributing_cells = N`,
and `covered / contributing_cells = 1`. -/
theorem C5_wall_field_rect_full_strip (w : MStrip) (hN : 1 ≤ w.N) (hM : 1 ≤ w.M)
    (hdata : ∀ i < w.N, ∀ j < w.M, w.data i j = some 1)
    (hmask : ∀ i < w.N, ∀ j < w.M, w.mask i j = false) :
    wall_field_rect w = PyVal.num 1 := by
  have hcc : ∀ i < w.N, ∀ j < w.M, clampCond w i j = false := by
    intro i hi j hj
    unfold clampCond
    rw [hdata i hi j hj]
    norm_num
  have htIn : ∀ i < w.N, ∀ j < w.M, tIn w i j = 0 := by
    intro i hi j hj
    unfold tIn data1
    rw [hcc i hi j hj, hdata i hi j hj]
    norm_num
  have hm1 : ∀ i < w.N, ∀ j < w.M, mask1 w i j = false := by
    intro i hi j hj
    unfold mask1
    rw [hmask i hi j hj]
    rfl
  have hsq0 : ∀ i < w.N, sqDist w i 0 = 0 := fun i hi =>
    sqDist_eq_zero_of_mem w i 0 ((mem_zeroCells w i 0).mpr ⟨hi, hM, htIn i hi 0 hM⟩)
  have hm2 : ∀ i < w.N, mask2 w i = false := by
    intro i hi
    unfold mask2
    rw [hm1 i hi 0 hM]
    rfl
  have hval2 : ∀ i < w.N, val2 w i = 0 := by
    intro i hi
    unfold val2
    rw [hm1 i hi 0 hM]
    simp only [Bool.false_eq_true, if_false]
    exact hsq0 i hi
  have hmc : maskedCount w = 0 := by
    unfold maskedCount
    rw [List.length_eq_zero, List.filter_eq_nil_iff]
    intro i hi
    simp [hm2 i (List.mem_range.mp hi)]
  have hcov : coveredCount w = w.N := by
    unfold coveredCount
    rw [List.filter_eq_self.mpr, List.length_range]
    intro i hi
    have hi' := List.mem_range.mp hi
    simp [hm2 i hi', hval2 i hi']
  unfold wall_field_rect
  rw [hmc, hcov, if_neg (by omega)]
  have hne : ((w.N - 0 : ℕ) : ℚ) ≠ 0 := by
    rw [Nat.cast_ne_zero]
    omega
  rw [Nat.sub_zero] at hne ⊢
  rw [div_self hne]

/-- Witness for C5 at the 2×2 all-ones strip. -/
theorem C5_wall_field_rect_full_strip_witness :
    (1 ≤ stripOnesTwoTwo.N ∧ 1 ≤ stripOnesTwoTwo.M ∧
      (∀ i < stripOnesTwoTwo.N, ∀ j < stripOnesTwoTwo.M,
        stripOnesTwoTwo.data i j = some 1) ∧
      (∀ i < stripOnesTwoTwo.N, ∀ j < stripOnesTwoTwo.M,
        stripOnesTwoTwo.mask i j = false)) ∧
    wall_field_rect stripOnesTwoTwo = PyVal.num 1 :=
  ⟨⟨by decide, by decide, fun _ _ _ _ => rfl, fun _ _ _ _ => rfl⟩,
    C5_wall_field_rect_full_strip stripOnesTwoTwo (by decide) (by decide)
      (fun _ _ _ _ => rfl) (fun _ _ _ _ => rfl)⟩

/-! ## Canonicalization symmetry (C6) -/

lemma find?_congr {p q : ℕ → Bool} : ∀ {l : List ℕ},
    (∀ x ∈ l, p x = q x) → l.find? p = l.find? q
  | [], _ => rfl
  | a :: l, h => by
    rw [List.forall_mem_cons] at h
    by_cases pa : p a
    · rw [List.find?_cons_of_pos _ pa, List.find?_cons_of_pos _ (h.1 ▸ pa)]
    · rw [List.find?_cons_of_neg _ pa, List.find?_cons_of_neg _ (h.1 ▸ pa),
        find?_congr h.2]

/-- `_wall_field_rect` only observes the in-bounds cells of its argument:
two strips of the same shape (with at least one column) that agree on data
and mask inside the bounds evaluate to the same coverage. -/
theorem wall_field_rect_congr (w w' : MStrip) (hN : w.N = w'.N) (hM : w.M = w'.M)
    (hMpos : 1 ≤ w.M)
    (hd : ∀ i < w.N, ∀ j < w.M, w.data i j = w'.data i j)
    (hm : ∀ i < w.N, ∀ j < w.M, w.mask i j = w'.mask i j) :
    wall_field_rect w = wall_field_rect w' := by
  have hcc : ∀ i < w.N, ∀ j < w.M, clampCond w i j = clampCond w' i j := by
    intro i hi j hj
    unfold clampCond
    rw [hd i hi j hj]
  have hd1 : ∀ i < w.N, ∀ j < w.M, data1 w i j = data1 w' i j := by
    intro i hi j hj
    unfold data1
    rw [hcc i hi j hj, hd i hi j hj]
  have hm1 : ∀ i < w.N, ∀ j < w.M, mask1 w i j = mask1 w' i j := by
    intro i hi j hj
    unfold mask1
    rw [hcc i hi j hj, hm i hi j hj]
  have htIn : ∀ i < w.N, ∀ j < w.M, tIn w i j = tIn w' i j := by
    intro i hi j hj
    unfold tIn
    rw [hd1 i hi j hj]
  have hzc : zeroCells w = zeroCells w' := by
    unfold zeroCells
    rw [← hN, ← hM]
    apply List.flatMap_congr
    intro i hi
    apply List.filterMap_congr
    intro j hj
    rw [htIn i (List.mem_range.mp hi) j (List.mem_range.mp hj)]
  have hsq : ∀ i j, sqDist w i j = sqDist w' i j := by
    intro i j
    unfold sqDist
    rw [hzc]
  have hfv : ∀ i < w.N, firstValid w i = firstValid w' i := by
    intro i hi
    unfold firstValid
    rw [← hM]
    apply find?_congr
    intro j hj
    rw [hm1 i hi j (List.mem_range.mp hj)]
  have hv2 : ∀ i < w.N, val2 w i = val2 w' i := by
    intro i hi
    unfold val2
    rw [hm1 i hi 0 hMpos, hfv i hi]
    simp only [hsq]
  have hq2 : ∀ i < w.N, mask2 w i = mask2 w' i := by
    intro i hi
    unfold mask2
    rw [hm1 i hi 0 hMpos, hfv i hi]
  have hmc : maskedCount w = maskedCount w' := by
    unfold maskedCount
    rw [← hN]
    congr 1
    apply List.filter_congr
    intro i hi
    rw [hq2 i (List.mem_range.mp hi)]
  have hcv : coveredCount w = coveredCount w' := by
    unfold coveredCount
    rw [← hN]
    congr 1
    apply List.filter_congr
    intro i hi
    rw [hq2 i (List.mem_range.mp hi), hv2 i (List.mem_range.mp hi)]
  unfold wall_field_rect
  rw [hmc, hcv, hN]

/-- Concrete 4×3 field map: column 0 ones, rest zeros, no mask. -/
def mapFourThree : MStrip :=
  ⟨4, 3, fun _ j => if j = 0 then some 1 else some 0, fun _ _ => false⟩

/-- C6: evaluating the right wall on a field map `M` gives the same
coverage as evaluating the left wall on the horizontal mirror of `M`: the
two extraction paths (`fliplr(M[:, -sw:])` and `fliplr(M)[:, :sw]`) produce
strips that agree cell-for-cell, so the evaluator returns equal results.
`sw ≥ 1` per the configuration surface (positive `search_width`), and the
map has at least one column. -/
theorem C6_right_wall_eq_left_of_fliplr (g : MStrip) (sw : ℕ) (hsw : 1 ≤ sw)
    (hM : 1 ≤ g.M) :
    wall_field_rect (rightStrip sw g) = wall_field_rect (leftStrip sw (fliplr g)) := by
  apply wall_field_rect_congr
  · rfl
  · rfl
  · show 1 ≤ min sw g.M
    omega
  · intro i hi j hj
    have hj' : j < min sw g.M := hj
    show g.data i (g.M - min sw g.M + (min sw g.M - 1 - j)) = g.data i (g.M - 1 - j)
    congr 1
    omega
  · intro i hi j hj
    have hj' : j < min sw g.M := hj
    show g.mask i (g.M - min sw g.M + (min sw g.M - 1 - j)) = g.mask i (g.M - 1 - j)
    congr 1
    omega

/-- Witness for C6 at the concrete 4×3 left-column field map with
`search_width = 3`. -/
theorem C6_right_wall_eq_left_of_fliplr_witness :
    (1 ≤ 3 ∧ 1 ≤ mapFourThree.M) ∧
      wall_field_rect (rightStrip 3 mapFourThree)
        = wall_field_rect (leftStrip 3 (fliplr mapFourThree)) :=
  ⟨⟨by decide, by decide⟩,
    C6_right_wall_eq_left_of_fliplr mapFourThree 3 (by decide) (by decide)⟩
